import Mathlib

/-!
# Verification development for `open-session-files.ts`

A shallow embedding of the pi extension `pi-open-sessions-files-extension`
(single source file `open-session-files.ts`).  JavaScript strings are
modelled as `List Char` (`Str`) so that every operation is executable and
kernel-reducible; JavaScript's dynamically typed values (session entries,
content blocks, parsed JSON) are modelled by the inductive `JSVal`.
JavaScript exceptions (`JSON.parse` throwing, calling a method on a
non-object) are modelled with `Except String`.

Model restrictions, stated once here:
* JS numbers are IEEE doubles; the model restricts them to integers
  (`Int`).  No verified claim depends on numeric values.
* `String.prototype.trim` / `toLowerCase` are Unicode-aware in JS; the
  model covers the ASCII fragment.
* the `$`-substitution forms ECMAScript's GetSubstitution gives string
  replacements in `replace`/`replaceAll` are modelled by
  `getSubstitution` (`$$`, `$&`, and the two match-context forms).
-/

/-- JavaScript strings, modelled as lists of characters so that all
operations compute inside the kernel. -/
abbrev Str := List Char

/-- ECMAScript GetSubstitution for a string replacement with no capture
groups: `$$` inserts a dollar, `$&` the matched substring, a dollar
followed by a backquote (code 96) the part of the subject before the
match, a dollar followed by an apostrophe (code 39) the part after the
match; any other `$` stays literal. -/
def getSubstitution (matched before after : Str) : Str → Str
  | [] => []
  | c :: rest =>
    if c == '$' then
      match rest with
      | [] => ['$']
      | d :: rest2 =>
        if d == '$' then '$' :: getSubstitution matched before after rest2
        else if d == '&' then matched ++ getSubstitution matched before after rest2
        else if d == Char.ofNat 96 then before ++ getSubstitution matched before after rest2
        else if d == Char.ofNat 39 then after ++ getSubstitution matched before after rest2
        else '$' :: getSubstitution matched before after (d :: rest2)
    else c :: getSubstitution matched before after rest

/-- True when the replacement string contains none of the four
`$`-substitution forms, so that `getSubstitution` inserts it verbatim in
every match context. -/
def noSubstPattern : Str → Bool
  | [] => true
  | c :: rest =>
    if c == '$' then
      match rest with
      | [] => true
      | d :: rest2 =>
        !(d == '$' || d == '&' || d == Char.ofNat 96 || d == Char.ofNat 39) &&
          noSubstPattern (d :: rest2)
    else noSubstPattern rest

/-- Fuel-based worker for `replaceAll`: `pre` is the already-consumed
part of the original subject in reverse (the match context GetSubstitution
needs), and the fuel (an upper bound on the number of characters still to
be consumed) keeps the recursion structural so that the kernel can
evaluate it. -/
def replaceAllAux : Nat → Str → Str → Str → Str → Str
  | 0, _, _, _, s => s
  | fuel + 1, pat, rep, pre, s =>
    match s with
    | [] => []
    | c :: cs =>
      if !(pat == []) && pat.isPrefixOf (c :: cs) then
        getSubstitution pat pre.reverse ((c :: cs).drop pat.length) rep
          ++ replaceAllAux fuel pat rep (pat.reverse ++ pre) ((c :: cs).drop pat.length)
      else
        c :: replaceAllAux fuel pat rep (c :: pre) cs

/-- Replace every non-overlapping occurrence of `pat` in the subject
(scanning left to right, never rescanning the inserted text), each
replacement passed through `getSubstitution` — the shared semantics of
`String.prototype.replace` with a global single-char regex and of
`String.prototype.replaceAll` with a string pattern. -/
def replaceAll (pat rep s : Str) : Str :=
  replaceAllAux s.length pat rep [] s

/-- Specification-side reference: the verbatim substitution the spec's
words describe, with the replacement inserted unchanged at every match. -/
def replaceAllVerbatimAux : Nat → Str → Str → Str → Str
  | 0, _, _, s => s
  | fuel + 1, pat, rep, s =>
    match s with
    | [] => []
    | c :: cs =>
      if !(pat == []) && pat.isPrefixOf (c :: cs) then
        rep ++ replaceAllVerbatimAux fuel pat rep ((c :: cs).drop pat.length)
      else
        c :: replaceAllVerbatimAux fuel pat rep cs

/-- Specification-side reference: verbatim replace-all. -/
def replaceAllVerbatim (pat rep s : Str) : Str :=
  replaceAllVerbatimAux s.length pat rep s

/-- Whitespace recognised by the model of JS `trim` (ASCII fragment). -/
def isWsChar (c : Char) : Bool :=
  c == ' ' || c == '\t' || c == '\n' || c == '\r' || c == Char.ofNat 11 || c == Char.ofNat 12

/-- Model of `String.prototype.trim` (ASCII fragment). -/
def jsTrim (s : Str) : Str :=
  ((s.dropWhile isWsChar).reverse.dropWhile isWsChar).reverse

/-- Does `pat` occur as a contiguous substring of the subject?  Model of
`String.prototype.includes`. -/
def hasSub (pat : Str) : Str → Bool
  | [] => pat.isPrefixOf []
  | c :: cs => pat.isPrefixOf (c :: cs) || hasSub pat cs

/-- JS `a || b` for an optional string `a`: the string when present and
non-empty (truthy), otherwise the fallback. -/
def jsOrStr (a : Option Str) (b : Str) : Str :=
  match a with
  | some s => if s == [] then b else s
  | none => b

/-- ASCII model of JS `toLowerCase` on one character. -/
def jsLowerChar (c : Char) : Char :=
  if 65 ≤ c.toNat ∧ c.toNat ≤ 90 then Char.ofNat (c.toNat + 32) else c

/-- ASCII model of `String.prototype.toLowerCase`. -/
def jsToLowerCase (s : Str) : Str := s.map jsLowerChar

/-- `shellEscape` (source lines 23–25):
`return `'${arg.replace(/'/g, `"'"'`)}'`;` — the argument is wrapped in
single quotes and every embedded single quote is replaced by the four
character sequence `"'"'` taken verbatim from the source. -/
def shellEscape (arg : Str) : Str :=
  "'".data ++ replaceAll "'".data "\"'\"'".data arg ++ "'".data

/-- Dynamically typed JavaScript values (the session log is `any`-typed in
the source, and `JSON.parse` produces arbitrary JSON values).  `undefined` is the JS value of the same name; numbers are restricted to integers (model restriction). -/
inductive JSVal where
  | undefined
  | null
  | bool (b : Bool)
  | num (n : Int)
  | str (s : Str)
  | arr (elems : List JSVal)
  | obj (fields : List (Str × JSVal))

/-- Structural (strict, `===`-style) equality test on `JSVal`.  In the
source every comparison on these values is `!==` against string
literals. -/
def beqJS : JSVal → JSVal → Bool
  | .undefined, .undefined => true
  | .null, .null => true
  | .bool a, .bool b => a == b
  | .num a, .num b => a == b
  | .str a, .str b => a == b
  | .arr a, .arr b => beqArr a b
  | .obj a, .obj b => beqObj a b
  | _, _ => false
where
  beqArr : List JSVal → List JSVal → Bool
    | [], [] => true
    | x :: xs, y :: ys => beqJS x y && beqArr xs ys
    | _, _ => false
  beqObj : List (Str × JSVal) → List (Str × JSVal) → Bool
    | [], [] => true
    | (k1, v1) :: xs, (k2, v2) :: ys => k1 == k2 && beqJS v1 v2 && beqObj xs ys
    | _, _ => false

/-- Last bound value of a key in an object's field list (a JS object holds
one binding per key; `JSON.parse` resolves duplicate keys last-wins). -/
def objGet : List (Str × JSVal) → Str → Option JSVal
  | [], _ => none
  | (k, v) :: rest, key =>
    match objGet rest key with
    | some w => some w
    | none => if k == key then some v else none

/-- JS property read `v.key` (and `v?.key` when `v` may be nullish): a
named property of an object, `undefined` on every other value.  (Array
index and prototype properties are never read by the source.) -/
def getField (v : JSVal) (key : Str) : JSVal :=
  match v with
  | .obj fields => (objGet fields key).getD .undefined
  | _ => .undefined

/-- JS truthiness. -/
def truthy : JSVal → Bool
  | .undefined => false
  | .null => false
  | .bool b => b
  | .num n => n != 0
  | .str s => !(s == [])
  | .arr _ => true
  | .obj _ => true

/-- JS `typeof v === "object"` (true for objects, arrays and `null`). -/
def typeofIsObject : JSVal → Bool
  | .null => true
  | .arr _ => true
  | .obj _ => true
  | _ => false

/-- JS nullish test (`undefined` or `null`), the test performed by `??`. -/
def isNullish : JSVal → Bool
  | .undefined => true
  | .null => true
  | _ => false

/-- Decimal digits of a natural number (auxiliary for `intToStr`). -/
def natToStrAux : Nat → Nat → Str
  | 0, _ => []
  | _ + 1, 0 => []
  | fuel + 1, n => natToStrAux fuel (n / 10) ++ [Char.ofNat (48 + n % 10)]

/-- Decimal rendering of a natural number. -/
def natToStr (n : Nat) : Str :=
  if n = 0 then ['0'] else natToStrAux (n + 1) n

/-- Decimal rendering of an integer (model of JS number-to-string for the
integers the model supports). -/
def intToStr : Int → Str
  | .ofNat n => natToStr n
  | .negSucc m => '-' :: natToStr (m + 1)

mutual

/-- Model of JS `String(v)` conversion. -/
def jsToString : JSVal → Str
  | .undefined => "undefined".data
  | .null => "null".data
  | .bool b => if b then "true".data else "false".data
  | .num n => intToStr n
  | .str s => s
  | .arr xs => jsJoinElems xs
  | .obj _ => "[object Object]".data

/-- `Array.prototype.toString`: elements joined by commas. -/
def jsJoinElems : List JSVal → Str
  | [] => []
  | x :: xs =>
    match xs with
    | [] => jsElemStr x
    | _ :: _ => jsElemStr x ++ ',' :: jsJoinElems xs

/-- One array element under `Array.prototype.toString`: `null` and
`undefined` render as the empty string, everything else as `String(v)`. -/
def jsElemStr : JSVal → Str
  | .undefined => []
  | .null => []
  | .bool b => if b then "true".data else "false".data
  | .num n => intToStr n
  | .str s => s
  | .arr xs => jsJoinElems xs
  | .obj _ => "[object Object]".data

end

/-- Leading JSON whitespace removal. -/
def skipWs : Str → Str
  | [] => []
  | c :: cs => if c == ' ' || c == '\t' || c == '\n' || c == '\r' then skipWs cs else c :: cs

/-- Body of a JSON string literal (after the opening quote), with the
common escapes; `acc` holds the decoded characters in reverse. -/
def parseStringBody (acc : Str) : Str → Except String (Str × Str)
  | [] => .error "Unterminated string in JSON"
  | c :: cs =>
    if c == '"' then .ok (acc.reverse, cs)
    else if c == '\\' then
      match cs with
      | [] => .error "Unterminated string in JSON"
      | e :: cs2 =>
        if e == '"' then parseStringBody ('"' :: acc) cs2
        else if e == '\\' then parseStringBody ('\\' :: acc) cs2
        else if e == '/' then parseStringBody ('/' :: acc) cs2
        else if e == 'n' then parseStringBody ('\n' :: acc) cs2
        else if e == 't' then parseStringBody ('\t' :: acc) cs2
        else if e == 'r' then parseStringBody ('\r' :: acc) cs2
        else if e == 'b' then parseStringBody (Char.ofNat 8 :: acc) cs2
        else if e == 'f' then parseStringBody (Char.ofNat 12 :: acc) cs2
        else .error "Bad escaped character in JSON"
    else parseStringBody (c :: acc) cs

/-- Consume a run of decimal digits, returning their value, how many were
consumed, and the rest. -/
def parseDigits (acc count : Nat) : Str → Nat × Nat × Str
  | [] => (acc, count, [])
  | c :: cs =>
    if c.isDigit then parseDigits (acc * 10 + (c.toNat - 48)) (count + 1) cs
    else (acc, count, c :: cs)

/-- Syntactically consume an optional fraction part of a JSON number.
(The numeric value keeps only the integer part: model restriction.) -/
def skipFrac : Str → Except String Str
  | '.' :: rest =>
    match parseDigits 0 0 rest with
    | (_, 0, _) => .error "Unexpected token in JSON number"
    | (_, _ + 1, rest2) => .ok rest2
  | cs => .ok cs

/-- Syntactically consume an optional exponent part of a JSON number. -/
def skipExp : Str → Except String Str
  | c :: rest =>
    if c == 'e' || c == 'E' then
      let rest2 := match rest with
        | s :: tail => if s == '+' || s == '-' then tail else s :: tail
        | [] => []
      match parseDigits 0 0 rest2 with
      | (_, 0, _) => .error "Unexpected token in JSON number"
      | (_, _ + 1, rest3) => .ok rest3
    else .ok (c :: rest)
  | [] => .ok []

/-- A JSON number starting at `cs` (sign already consumed). -/
def parseNumber (neg : Bool) (cs : Str) : Except String (JSVal × Str) :=
  match parseDigits 0 0 cs with
  | (_, 0, _) => .error "Unexpected token in JSON number"
  | (v, _ + 1, rest) =>
    match skipFrac rest with
    | .error e => .error e
    | .ok rest2 =>
      match skipExp rest2 with
      | .error e => .error e
      | .ok rest3 => .ok (.num (if neg then -(v : Int) else (v : Int)), rest3)

/-- Expect the literal tail `lit` (for `true` / `false` / `null`). -/
def expectLit (lit : Str) (v : JSVal) (cs : Str) : Except String (JSVal × Str) :=
  if lit.isPrefixOf cs then .ok (v, cs.drop lit.length) else .error "Unexpected token in JSON"

mutual

/-- One JSON value.  The fuel only bounds recursion depth; `jsonParse`
supplies enough for any input it can accept. -/
def parseVal : Nat → Str → Except String (JSVal × Str)
  | 0, _ => .error "JSON nesting too deep"
  | fuel + 1, cs =>
    match skipWs cs with
    | [] => .error "Unexpected end of JSON input"
    | c :: rest =>
      if c == '"' then
        match parseStringBody [] rest with
        | .error e => .error e
        | .ok (s, r) => .ok (.str s, r)
      else if c == '{' then parseObjFields fuel true [] rest
      else if c == '[' then parseArrElems fuel true [] rest
      else if c == 't' then expectLit "rue".data (.bool true) rest
      else if c == 'f' then expectLit "alse".data (.bool false) rest
      else if c == 'n' then expectLit "ull".data .null rest
      else if c == '-' then parseNumber true rest
      else if c.isDigit then parseNumber false (c :: rest)
      else .error "Unexpected token in JSON"

/-- Elements of a JSON array (after `[`, or after a comma when `first` is
false); `acc` holds parsed elements in reverse. -/
def parseArrElems : Nat → Bool → List JSVal → Str → Except String (JSVal × Str)
  | 0, _, _, _ => .error "JSON nesting too deep"
  | fuel + 1, first, acc, cs =>
    match skipWs cs with
    | ']' :: rest => if first then .ok (.arr [], rest) else .error "Unexpected token ] in JSON"
    | _ =>
      match parseVal fuel cs with
      | .error e => .error e
      | .ok (v, rest) =>
        match skipWs rest with
        | ',' :: rest2 => parseArrElems fuel false (v :: acc) rest2
        | ']' :: rest2 => .ok (.arr (v :: acc).reverse, rest2)
        | _ => .error "Expected , or ] after JSON array element"

/-- Members of a JSON object (after `{`, or after a comma when `first` is
false); `acc` holds parsed members in reverse. -/
def parseObjFields : Nat → Bool → List (Str × JSVal) → Str → Except String (JSVal × Str)
  | 0, _, _, _ => .error "JSON nesting too deep"
  | fuel + 1, first, acc, cs =>
    match skipWs cs with
    | '}' :: rest => if first then .ok (.obj [], rest) else .error "Unexpected token \x7d in JSON"
    | '"' :: rest =>
      match parseStringBody [] rest with
      | .error e => .error e
      | .ok (k, rest2) =>
        match skipWs rest2 with
        | ':' :: rest3 =>
          match parseVal fuel rest3 with
          | .error e => .error e
          | .ok (v, rest4) =>
            match skipWs rest4 with
            | ',' :: rest5 => parseObjFields fuel false ((k, v) :: acc) rest5
            | '}' :: rest5 => .ok (.obj ((k, v) :: acc).reverse, rest5)
            | _ => .error "Expected , or \x7d after JSON object member"
        | _ => .error "Expected : in JSON object"
    | _ => .error "Expected string key in JSON object"

end

/-- Model of `JSON.parse` on a string: parse one value, allow trailing
whitespace only.  Throwing is modelled by `.error`. -/
def jsonParse (s : Str) : Except String JSVal :=
  match parseVal (s.length + 1) s with
  | .error e => .error e
  | .ok (v, rest) => if skipWs rest == [] then .ok v else .error "Unexpected non-whitespace character after JSON data"

/-- Path normalization (source line 112): `String(args.path).replace(/^@/, "")`
removes exactly one leading `@` when present. -/
def stripLeadingAt : Str → Str
  | '@' :: rest => rest
  | s => s

/-- `args = block.arguments ?? block.input ?? (block.function?.arguments ?
JSON.parse(block.function.arguments) : undefined)` (source line 109).
`JSON.parse` first coerces its argument to a string, and can throw. -/
def resolveArgs (block : JSVal) : Except String JSVal :=
  let a := getField block "arguments".data
  if !isNullish a then .ok a
  else
    let i := getField block "input".data
    if !isNullish i then .ok i
    else
      let fa := getField (getField block "function".data) "arguments".data
      if truthy fa then jsonParse (jsToString fa) else .ok .undefined

/-- Per-block step of `getSessionEditedFiles` (source lines 101–112):
`.ok none` means the block contributes no path (the loop `continue`s),
`.ok (some p)` is the normalized path it contributes, `.error` is a thrown
`JSON.parse` exception. -/
def blockPath (block : JSVal) : Except String (Option Str) :=
  if !(truthy block && typeofIsObject block) then .ok none
  else
    let t := getField block "type".data
    if !(beqJS t (.str "toolCall".data) || beqJS t (.str "tool_use".data) ||
         beqJS t (.str "tool_call".data)) then .ok none
    else
      let name :=
        if !isNullish (getField block "name".data) then getField block "name".data
        else if !isNullish (getField (getField block "function".data) "name".data) then
          getField (getField block "function".data) "name".data
        else .str []
      if !(beqJS name (.str "edit".data) || beqJS name (.str "write".data)) then .ok none
      else
        match resolveArgs block with
        | .error e => .error e
        | .ok args =>
          let pathVal := getField args "path".data
          if !truthy pathVal then .ok none
          else .ok (some (stripLeadingAt (jsToString pathVal)))

/-- Content blocks an entry contributes to the scan (source lines 95–99):
message entries with an assistant-role message whose `content` is an
array; every other entry contributes nothing. -/
def entryBlocks (entry : JSVal) : List JSVal :=
  if !beqJS (getField entry "type".data) (.str "message".data) then []
  else
    let msg := getField entry "message".data
    if !(truthy msg && beqJS (getField msg "role".data) (.str "assistant".data)) then []
    else
      match getField msg "content".data with
      | .arr blocks => blocks
      | _ => []

/-- The inner loop of `getSessionEditedFiles` over content blocks,
threading the `seen` set (as a list) and the `files` accumulator exactly
as the source does (lines 113–116). -/
def scanBlocks (st : List Str × List Str) : List JSVal → Except String (List Str × List Str)
  | [] => .ok st
  | b :: bs =>
    match blockPath b with
    | .error e => .error e
    | .ok none => scanBlocks st bs
    | .ok (some p) =>
      if p ∈ st.1 then scanBlocks st bs
      else scanBlocks (p :: st.1, st.2 ++ [p]) bs

/-- The outer loop of `getSessionEditedFiles` over session entries. -/
def scanEntries (st : List Str × List Str) : List JSVal → Except String (List Str × List Str)
  | [] => .ok st
  | e :: es =>
    match scanBlocks st (entryBlocks e) with
    | .error err => .error err
    | .ok st2 => scanEntries st2 es

/-- `getSessionEditedFiles` (source lines 90–121) on the entry list
returned by `ctx.sessionManager.getBranch()`.  A thrown exception
(`JSON.parse` on malformed nested arguments) is the `.error` case. -/
def getSessionEditedFiles (entries : List JSVal) : Except String (List Str) :=
  match scanEntries ([], []) entries with
  | .error e => .error e
  | .ok st => .ok st.2

/-- Specification-side reference: the raw sequence of normalized paths the
scan encounters, without deduplication, in scan order. -/
def rawBlockPaths : List JSVal → Except String (List Str)
  | [] => .ok []
  | b :: bs =>
    match blockPath b with
    | .error e => .error e
    | .ok p? =>
      match rawBlockPaths bs with
      | .error e => .error e
      | .ok rest =>
        match p? with
        | none => .ok rest
        | some p => .ok (p :: rest)

/-- Specification-side reference: the raw path sequence of a whole entry
list. -/
def rawPaths (entries : List JSVal) : Except String (List Str) :=
  rawBlockPaths (entries.flatMap entryBlocks)

/-- Specification-side reference: keep the first occurrence of each
element, in encounter order, threading a seen list and an output
accumulator. -/
def firstSeenAux (st : List Str × List Str) : List Str → List Str × List Str
  | [] => st
  | p :: ps =>
    if p ∈ st.1 then firstSeenAux st ps
    else firstSeenAux (p :: st.1, st.2 ++ [p]) ps

/-- Specification-side reference: each distinct element once, at the
position of its first occurrence. -/
def firstSeen (raw : List Str) : List Str :=
  (firstSeenAux ([], []) raw).2

/-- The relevant environment variables (source lines 46–48, 57, 78). -/
structure Env where
  piOpenFileCommand : Option Str := none
  piOpenFileMode : Option Str := none
  piOpenFileShortcut : Option Str := none
  piCodingAgentDir : Option Str := none
  visual : Option Str := none
  editor : Option Str := none

/-- The merged settings record built by `loadSettings` before the final
defaulting (the TS `ExtensionSettings` object).  A field is `none` when
the key is absent; values from a settings file may be any JSON value
because `pickExtensionSettings` performs no validation. -/
structure MergedSettings where
  openCommand : Option JSVal := none
  openMode : Option JSVal := none
  shortcut : Option JSVal := none

/-- The settings object `loadSettings` returns after line 72–73 run:
`openMode` is forced to a mode string and `shortcut` to a lower-cased
string; `openCommand` is passed through untouched. -/
structure ResolvedSettings where
  openCommand : Option JSVal
  openMode : Str
  shortcut : Str

/-- `normalizeMode` (source lines 40–43): the value itself when it is
exactly the string "foreground" or "background", otherwise undefined. -/
def normalizeMode : JSVal → Option Str
  | .str s => if s == "foreground".data || s == "background".data then some s else none
  | _ => none

/-- `pickExtensionSettings` (source lines 35–38): the `openSessionFiles`
member when it is a non-null object, else an empty record.  (When the
member is an array the three named fields are all absent, which the empty
record also models.) -/
def pickExtensionSettings (parsed : JSVal) : MergedSettings :=
  let direct := getField parsed "openSessionFiles".data
  if typeofIsObject direct && truthy direct then
    match direct with
    | .obj fields =>
      { openCommand := objGet fields "openCommand".data
        openMode := objGet fields "openMode".data
        shortcut := objGet fields "shortcut".data }
    | _ => {}
  else {}

/-- Object spread `{ ...m, ...p }` restricted to the three read fields: a
field of `p` wins whenever its key is present, whatever its value. -/
def mergeSpread (m p : MergedSettings) : MergedSettings :=
  { openCommand := p.openCommand.or m.openCommand
    openMode := p.openMode.or m.openMode
    shortcut := p.shortcut.or m.shortcut }

/-- The initial merged record seeded from the environment (source lines
46–53): each variable is trimmed, and installed only when truthy
(`openMode` additionally only when `normalizeMode` accepts it). -/
def envMerged (env : Env) : MergedSettings :=
  { openCommand :=
      match env.piOpenFileCommand.map jsTrim with
      | some s => if s == [] then none else some (.str s)
      | none => none
    openMode :=
      match env.piOpenFileMode.map jsTrim with
      | some s => (normalizeMode (.str s)).map .str
      | none => none
    shortcut :=
      match env.piOpenFileShortcut.map jsTrim with
      | some s => if s == [] then none else some (.str s)
      | none => none }

/-- The two settings paths (source lines 57–60): the agent directory
(`PI_CODING_AGENT_DIR` when trimmed-truthy, else `<home>/.pi/agent`)
followed by the project path under `cwd`.  `node:path`'s `join` is
modelled as slash concatenation. -/
def settingsPaths (env : Env) (home cwd : Str) : List Str :=
  let agentDir := jsOrStr (env.piCodingAgentDir.map jsTrim) (home ++ "/.pi/agent".data)
  [agentDir ++ "/settings.json".data, cwd ++ "/.pi/settings.json".data]

/-- One iteration of the settings-file loop (source lines 61–70): a
missing file is skipped, an unparsable file is ignored by the `catch`,
and a parsed file is spread over the accumulator.  The filesystem is the
map from a path to the file's contents when it exists. -/
def applyFile (m : MergedSettings) (contents : Option Str) : MergedSettings :=
  match contents with
  | none => m
  | some raw =>
    match jsonParse raw with
    | .error _ => m
    | .ok parsed => mergeSpread m (pickExtensionSettings parsed)

/-- The merged settings after the environment layer and both settings
files (source lines 46–70), before the final defaulting. -/
def mergedSettings (env : Env) (fs : Str → Option Str) (home cwd : Str) : MergedSettings :=
  (settingsPaths env home cwd).foldl (fun m path => applyFile m (fs path)) (envMerged env)

/-- Line 73, `(merged.shortcut || "alt+o").toLowerCase()`: a truthy
non-string shortcut has no `toLowerCase` method, which the model reports
as a thrown `TypeError`. -/
def finalizeShortcut (v : Option JSVal) : Except String Str :=
  match v with
  | some w =>
    if truthy w then
      match w with
      | .str s => .ok (jsToLowerCase s)
      | _ => .error "TypeError: merged.shortcut.toLowerCase is not a function"
    else .ok (jsToLowerCase "alt+o".data)
  | none => .ok (jsToLowerCase "alt+o".data)

/-- `loadSettings` (source lines 45–75), as a function of the environment,
the filesystem, the home directory and the working directory. -/
def loadSettings (env : Env) (fs : Str → Option Str) (home cwd : Str) :
    Except String ResolvedSettings :=
  let merged := mergedSettings env fs home cwd
  match finalizeShortcut merged.shortcut with
  | .error e => .error e
  | .ok sc =>
    .ok { openCommand := merged.openCommand
          openMode :=
            match merged.openMode with
            | some v => (normalizeMode v).getD "foreground".data
            | none => "foreground".data
          shortcut := sc }

/-- The template of line 78–79: `settings.openCommand?.trim() ||
`${editor} {file}`` with `editor = VISUAL || EDITOR || "vi"`.
`openCommand` is taken at its declared TS type (an optional string). -/
def openTemplate (openCommand visual editorVar : Option Str) : Str :=
  let editor := jsOrStr visual (jsOrStr editorVar "vi".data)
  jsOrStr (openCommand.map jsTrim) (editor ++ " {file}".data)

/-- `buildOpenCommand` (source lines 77–88): substitute `{file}` then
`{cwd}` with shell-escaped values, and append the escaped path when the
template never mentions `{file}`. -/
def buildOpenCommand (filePath cwd : Str) (openCommand visual editorVar : Option Str) : Str :=
  let template := openTemplate openCommand visual editorVar
  let templateMentionsFile := hasSub "{file}".data template
  let command :=
    replaceAll "{cwd}".data (shellEscape cwd)
      (replaceAll "{file}".data (shellEscape filePath) template)
  if templateMentionsFile then command
  else command ++ " ".data ++ shellEscape filePath

/-- A picker candidate (source lines 146–149). -/
structure Candidate where
  path : Str
  search : Str

/-- One match returned by the external `fuzzysort` library: a score and
the original candidate object. -/
structure FuzzyResult where
  score : Int
  obj : Candidate

/-- `rankCandidates` (source lines 151–155), parametrized by the external
library function `go` (`fuzzysort.go` with `key: "search"`), which the
repository uses but does not define; `200` is the `limit` option. -/
def rankCandidates (go : Str → List Candidate → Nat → List FuzzyResult)
    (candidates : List Candidate) (query : Str) : List Candidate :=
  if jsTrim query == [] then candidates
  else (go query candidates 200).map (fun r => r.obj)

/-- Outcome of the picker flow after the modal resolves (source lines
255–275): cancellation, the stale-file warning, or a launch of
`runOpenCommand` in one of the two modes. -/
inductive AfterSelection where
  | cancelled
  | staleWarning (message : Str)
  | launch (mode : Str) (path : Str)

/-- The post-selection logic of `openFilePicker` (source lines 255–275):
`selected` is what the modal resolved to, `existsAtLaunch` is the
`existsSync` check made after selection, `openMode` the resolved mode.
`runOpenCommand` is invoked exactly in the `launch` outcomes. -/
def afterSelection (existsAtLaunch : Str → Bool) (openMode : Str)
    (selected : Option Str) : AfterSelection :=
  match selected with
  | none => .cancelled
  | some sel =>
    if !existsAtLaunch sel then
      .staleWarning ("File no longer exists: ".data ++ sel)
    else if openMode == "background".data then .launch "background".data sel
    else .launch "foreground".data sel

/-! ## Concrete session logs and configurations used by the theorems -/

/-- A tool-call content block carrying an already-parsed `arguments`
object with a `path` field. -/
def toolBlock (name path : String) : JSVal :=
  .obj [("type".data, .str "toolCall".data),
        ("name".data, .str name.data),
        ("arguments".data, .obj [("path".data, .str path.data)])]

/-- A `message` session entry with an assistant message holding the given
content blocks. -/
def msgEntry (blocks : List JSVal) : JSVal :=
  .obj [("type".data, .str "message".data),
        ("message".data, .obj [("role".data, .str "assistant".data),
                               ("content".data, .arr blocks)])]

/-- A tool-call block whose nested `function.arguments` is the string
`"{"`, which is not valid JSON: `JSON.parse` throws on it. -/
def badArgsBlock : JSVal :=
  .obj [("type".data, .str "tool_use".data),
        ("function".data, .obj [("name".data, .str "edit".data),
                                ("arguments".data, .str "\x7b".data)])]

/-- The environment of the C1 scenario: `PI_OPEN_FILE_MODE=background`,
with the agent directory pinned so the global settings path is known. -/
def envModeBackground : Env :=
  { piOpenFileMode := some "background".data
    piCodingAgentDir := some "/agent".data }

/-- A settings file setting `openSessionFiles.openMode` to "foreground". -/
def foregroundJson : Str :=
  "\x7b\"openSessionFiles\": \x7b\"openMode\": \"foreground\"\x7d\x7d".data

/-- A filesystem in which both the global and the project settings file
exist and set `openMode` to "foreground". -/
def fsBothForeground : Str → Option Str := fun p =>
  if p == "/agent/settings.json".data then some foregroundJson
  else if p == "/workdir/.pi/settings.json".data then some foregroundJson
  else none

/-- A filesystem whose project settings file gives `shortcut` the number
`42` (valid JSON, but not a string). -/
def fsNumericShortcut : Str → Option Str := fun p =>
  if p == "/workdir/.pi/settings.json".data then
    some "\x7b\"openSessionFiles\": \x7b\"shortcut\": 42\x7d\x7d".data
  else none

/-- An environment that pins the agent directory only (for the C9
counterexample). -/
def envAgentDirOnly : Env := { piCodingAgentDir := some "/agent".data }

/-- An environment supplying only a mixed-case shortcut (for the C9
witness). -/
def envUpperShortcut : Env := { piOpenFileShortcut := some "ALT+P".data }

/-- The session log of the C4 witness: a duplicated path around another
path. -/
def dupDemoEntries : List JSVal :=
  [msgEntry [toolBlock "edit" "a.ts", toolBlock "write" "b.ts", toolBlock "edit" "a.ts"]]

/-! ## Helper lemmas shared by the claim theorems -/

theorem scanBlocks_append (st : List Str × List Str) (xs ys : List JSVal) :
    scanBlocks st (xs ++ ys) =
      match scanBlocks st xs with
      | .error e => .error e
      | .ok st2 => scanBlocks st2 ys := by
  induction xs generalizing st with
  | nil => simp [scanBlocks]
  | cons b bs ih =>
    simp only [List.cons_append, scanBlocks]
    cases hb : blockPath b with
    | error e => simp
    | ok p? =>
      cases p? with
      | none => simp [ih]
      | some p =>
        by_cases hm : p ∈ st.1 <;> simp [hm, ih]

theorem scanEntries_eq_flat (st : List Str × List Str) (es : List JSVal) :
    scanEntries st es = scanBlocks st (es.flatMap entryBlocks) := by
  induction es generalizing st with
  | nil => simp [scanEntries, scanBlocks]
  | cons e es ih =>
    simp only [scanEntries, List.flatMap_cons, scanBlocks_append]
    cases h : scanBlocks st (entryBlocks e) with
    | error err => simp
    | ok st2 => simp [ih]

theorem scanBlocks_eq_raw (st : List Str × List Str) (bs : List JSVal) :
    scanBlocks st bs = (rawBlockPaths bs).map (firstSeenAux st) := by
  induction bs generalizing st with
  | nil => simp [scanBlocks, rawBlockPaths, firstSeenAux, Except.map]
  | cons b bs ih =>
    simp only [scanBlocks, rawBlockPaths]
    cases hb : blockPath b with
    | error e => simp [Except.map]
    | ok p? =>
      cases p? with
      | none =>
        cases hr : rawBlockPaths bs with
        | error e => simp [ih, hr, Except.map]
        | ok rest => simp [ih, hr, Except.map]
      | some p =>
        cases hr : rawBlockPaths bs with
        | error e =>
          by_cases hm : p ∈ st.1 <;> simp [hm, ih, hr, Except.map]
        | ok rest =>
          by_cases hm : p ∈ st.1 <;> simp [hm, ih, hr, Except.map, firstSeenAux]

theorem firstSeenAux_nodup (raw : List Str) :
    ∀ st : List Str × List Str, st.2.Nodup → (∀ p ∈ st.2, p ∈ st.1) →
      (firstSeenAux st raw).2.Nodup := by
  induction raw with
  | nil => intro st h1 h2; simpa [firstSeenAux] using h1
  | cons p ps ih =>
    intro st h1 h2
    simp only [firstSeenAux]
    by_cases hm : p ∈ st.1
    · simpa [hm] using ih st h1 h2
    · simp only [hm, if_false]
      apply ih
      · simp only [List.nodup_append, List.nodup_cons]
        refine ⟨h1, by simp, ?_⟩
        intro q hq
        simp only [List.mem_singleton]
        intro hqp
        exact hm (hqp ▸ h2 q hq)
      · intro q hq
        rcases List.mem_append.mp hq with h | h
        · exact List.mem_cons_of_mem _ (h2 q h)
        · simp at h; simp [h]

theorem firstSeenAux_order (raw : List Str) :
    ∀ st : List Str × List Str,
      ∃ t, (firstSeenAux st raw).2 = st.2 ++ t ∧ t.Sublist raw := by
  induction raw with
  | nil => intro st; exact ⟨[], by simp [firstSeenAux], List.Sublist.refl _⟩
  | cons p ps ih =>
    intro st
    simp only [firstSeenAux]
    by_cases hm : p ∈ st.1
    · rcases ih st with ⟨t, ht, hs⟩
      exact ⟨t, by simp [hm, ht], hs.cons p⟩
    · rcases ih (p :: st.1, st.2 ++ [p]) with ⟨t, ht, hs⟩
      refine ⟨p :: t, ?_, hs.cons₂ p⟩
      simp [hm, ht]

theorem firstSeen_nodup (raw : List Str) : (firstSeen raw).Nodup :=
  firstSeenAux_nodup raw ([], []) (by simp) (by simp)

theorem firstSeen_sublist (raw : List Str) : (firstSeen raw).Sublist raw := by
  rcases firstSeenAux_order raw ([], []) with ⟨t, ht, hs⟩
  simpa [firstSeen, ht] using hs

/-- The interleaved scan with its seen-set equals the raw path stream
post-processed by first-seen deduplication. -/
theorem getSessionEditedFiles_eq_raw (entries : List JSVal) :
    getSessionEditedFiles entries = (rawPaths entries).map firstSeen := by
  simp only [getSessionEditedFiles, rawPaths, scanEntries_eq_flat, scanBlocks_eq_raw]
  cases rawBlockPaths (entries.flatMap entryBlocks) with
  | error e => simp [Except.map]
  | ok raw => simp [Except.map, firstSeen]

theorem toNat_ofNat_add32 (n : Nat) (h1 : 65 ≤ n) (h2 : n ≤ 90) :
    (Char.ofNat (n + 32)).toNat = n + 32 := by
  have hv : (n + 32).isValidChar := by left; omega
  rw [Char.ofNat, dif_pos hv]
  simp [Char.toNat, Char.ofNatAux, UInt32.toNat, UInt32.ofNatCore]

theorem jsLowerChar_idem (c : Char) : jsLowerChar (jsLowerChar c) = jsLowerChar c := by
  unfold jsLowerChar
  by_cases h : 65 ≤ c.toNat ∧ c.toNat ≤ 90
  · rw [if_pos h]
    have := toNat_ofNat_add32 c.toNat h.1 h.2
    rw [if_neg]
    omega
  · rw [if_neg h, if_neg h]

theorem jsToLowerCase_idem (s : Str) : jsToLowerCase (jsToLowerCase s) = jsToLowerCase s := by
  simp only [jsToLowerCase, List.map_map, Function.comp]
  exact List.map_congr_left fun c _ => jsLowerChar_idem c

theorem jsToLowerCase_ne_nil (s : Str) (h : s ≠ []) : jsToLowerCase s ≠ [] := by
  simp [jsToLowerCase]
  exact h

/-- A replacement without `$`-substitution forms is inserted verbatim in
every match context. -/
theorem getSubstitution_of_noSubstPattern :
    ∀ (rep : Str), noSubstPattern rep = true →
      ∀ m b a : Str, getSubstitution m b a rep = rep := by
  intro rep
  induction rep using noSubstPattern.induct with
  | case1 => intro _ m b a; rfl
  | case2 c hc =>
    intro h m b a
    have hc2 : c = '$' := by simpa using hc
    simp [getSubstitution, hc]
    exact hc2.symm
  | case3 c hc d rest2 ih =>
    intro h m b a
    have h2 : (!(d == '$' || d == '&' || d == Char.ofNat 96 || d == Char.ofNat 39) &&
        noSubstPattern (d :: rest2)) = true := by
      have e : noSubstPattern (c :: d :: rest2) =
          (!(d == '$' || d == '&' || d == Char.ofNat 96 || d == Char.ofNat 39) &&
            noSubstPattern (d :: rest2)) := by
        simp only [noSubstPattern, hc, if_true]
      rw [e] at h
      exact h
    simp only [Bool.and_eq_true, Bool.not_eq_eq_eq_not, Bool.not_true, Bool.or_eq_false_iff] at h2
    obtain ⟨⟨⟨⟨hd1, hd2⟩, hd3⟩, hd4⟩, hrest⟩ := h2
    have hc2 : c = '$' := by simpa using hc
    simp only [getSubstitution, hc, if_true, hd1, hd2, hd3, hd4, Bool.false_eq_true, if_false]
    rw [ih hrest m b a, hc2]
  | case4 c rest hc ih =>
    intro h m b a
    have h2 : noSubstPattern rest = true := by
      have e : noSubstPattern (c :: rest) = noSubstPattern rest := by
        rw [noSubstPattern.eq_def]
        exact if_neg hc
      rw [e] at h
      exact h
    have e2 : getSubstitution m b a (c :: rest) = c :: getSubstitution m b a rest := by
      rw [getSubstitution.eq_def]
      exact if_neg hc
    rw [e2, ih h2 m b a]

/-- With a `$`-free replacement, `replaceAll` coincides with the
verbatim substitution regardless of the consumed prefix. -/
theorem replaceAllAux_eq_verbatim (pat rep : Str) (h : noSubstPattern rep = true) :
    ∀ (fuel : Nat) (pre s : Str),
      replaceAllAux fuel pat rep pre s = replaceAllVerbatimAux fuel pat rep s := by
  intro fuel
  induction fuel with
  | zero => intro pre s; rfl
  | succ n ih =>
    intro pre s
    cases s with
    | nil => rfl
    | cons c cs =>
      simp only [replaceAllAux, replaceAllVerbatimAux]
      by_cases hp : (!(pat == []) && pat.isPrefixOf (c :: cs)) = true
      · rw [if_pos hp, if_pos hp, getSubstitution_of_noSubstPattern rep h, ih]
      · rw [if_neg hp, if_neg hp, ih]

/-- With a `$`-free replacement, `replaceAll` is verbatim substitution. -/
theorem replaceAll_eq_verbatim (pat rep s : Str) (h : noSubstPattern rep = true) :
    replaceAll pat rep s = replaceAllVerbatim pat rep s :=
  replaceAllAux_eq_verbatim pat rep h s.length [] s

/-! ## Claim theorems -/

/-- C1: the claim says environment variables take highest precedence, so
with `PI_OPEN_FILE_MODE=background` and `openMode: "foreground"` in both
settings files the effective mode should be "background".  The code
spreads each settings file over the env-seeded record
(`merged = { ...merged, ...pickExtensionSettings(parsed) }`), so the
files override the environment and `loadSettings` actually returns
`openMode = "foreground"` on exactly that input — contradicting the
repository README's "highest priority first: 1. Env vars" and the claim. -/
theorem loadSettings_env_mode_overridden_by_files :
    loadSettings envModeBackground fsBothForeground "/home/user".data "/workdir".data =
      .ok { openCommand := none, openMode := "foreground".data, shortcut := "alt+o".data } := by
  rfl

/-- C2 counterexample: a session log whose only tool-call block carries
`function.arguments = "{"`, a string that is not valid JSON.  The claim
says such a block is skipped without raising any error; in the code
`JSON.parse` is called without a try/catch (line 109), so the whole
extraction aborts with the parse error. -/
theorem getSessionEditedFiles_malformed_arguments_throws :
    getSessionEditedFiles [msgEntry [badArgsBlock]] =
      .error "Expected string key in JSON object" := by
  rfl

/-- C2 amended: a tool-call block whose arguments resolve to no path is
skipped and the scan continues with the remaining blocks; but a block
whose nested `function.arguments` is a truthy string that is not valid
JSON makes `JSON.parse` throw and aborts the whole extraction with that
error (there is no try/catch around the parse). -/
theorem scanBlocks_skips_pathless_blocks_but_propagates_parse_errors :
    (∀ (st : List Str × List Str) (b : JSVal) (bs : List JSVal),
       blockPath b = .ok none → scanBlocks st (b :: bs) = scanBlocks st bs)
    ∧ (∀ (st : List Str × List Str) (b : JSVal) (bs : List JSVal) (e : String),
       blockPath b = .error e → scanBlocks st (b :: bs) = .error e) := by
  constructor
  · intro st b bs h
    simp [scanBlocks, h]
  · intro st b bs e h
    simp [scanBlocks, h]

/-- C2 witness: a `read` block (whose `blockPath` is `.ok none`) is
skipped with the scan continuing, and the malformed-arguments block
aborts the scan, both by the amended theorem applied at concrete
blocks. -/
theorem scanBlocks_skips_pathless_blocks_but_propagates_parse_errors_witness :
    scanBlocks ([], []) [toolBlock "read" "x.ts"] = scanBlocks ([], []) []
    ∧ scanBlocks ([], []) [badArgsBlock] = .error "Expected string key in JSON object" :=
  ⟨scanBlocks_skips_pathless_blocks_but_propagates_parse_errors.1 ([], [])
      (toolBlock "read" "x.ts") [] (by rfl),
   scanBlocks_skips_pathless_blocks_but_propagates_parse_errors.2 ([], [])
      badArgsBlock [] "Expected string key in JSON object" (by rfl)⟩

/-- C3: the claim (and the spec) say `shellEscape` performs standard POSIX
single-quote escaping, mapping `it's.ts` to `'it'"'"'s.ts'`.  The code's
replacement string is `"'"'` — it is missing the leading close-quote —
so the code actually produces `'it"'"'s.ts'` (which a POSIX shell reads
as `it"'s.ts`, not the original string).  The theorem evaluates the code
at the failing input and shows the output differs from the claimed
escaping. -/
theorem shellEscape_single_quote_eval :
    shellEscape "it's.ts".data = "'it\"'\"'s.ts'".data
    ∧ "'it\"'\"'s.ts'".data ≠ "'it'\"'\"'s.ts'".data := by
  constructor
  · decide
  · decide

/-- C4: whenever `getSessionEditedFiles` returns (that is, no malformed
`function.arguments` made `JSON.parse` throw), the returned list has no
duplicate path, equals the first-seen deduplication of the raw path
stream the scan encounters, and is a sublist of that stream — i.e. each
distinct path appears at most once, at the position of its first
occurrence during the scan. -/
theorem getSessionEditedFiles_nodup_firstSeen :
    ∀ (entries : List JSVal) (files : List Str),
      getSessionEditedFiles entries = .ok files →
      files.Nodup ∧
        ∀ raw, rawPaths entries = .ok raw → files = firstSeen raw ∧ files.Sublist raw := by
  intro entries files h
  rw [getSessionEditedFiles_eq_raw] at h
  cases hr : rawPaths entries with
  | error e => rw [hr] at h; simp [Except.map] at h
  | ok raw0 =>
    rw [hr] at h
    simp only [Except.map] at h
    injection h with h
    subst h
    refine ⟨firstSeen_nodup raw0, ?_⟩
    intro raw hraw
    injection hraw with hraw
    subst hraw
    exact ⟨rfl, firstSeen_sublist raw0⟩

/-- C4 witness: on a log editing `a.ts`, `b.ts`, `a.ts` the theorem
yields the dedup/order facts at the concrete output `[a.ts, b.ts]` and
raw stream `[a.ts, b.ts, a.ts]`. -/
theorem getSessionEditedFiles_nodup_firstSeen_witness :
    (["a.ts".data, "b.ts".data] : List Str).Nodup
    ∧ ["a.ts".data, "b.ts".data] = firstSeen ["a.ts".data, "b.ts".data, "a.ts".data]
    ∧ List.Sublist ["a.ts".data, "b.ts".data] ["a.ts".data, "b.ts".data, "a.ts".data] :=
  have h := getSessionEditedFiles_nodup_firstSeen dupDemoEntries
    ["a.ts".data, "b.ts".data] (by rfl)
  ⟨h.1, (h.2 ["a.ts".data, "b.ts".data, "a.ts".data] (by rfl)).1,
    (h.2 ["a.ts".data, "b.ts".data, "a.ts".data] (by rfl)).2⟩

/-- C5 counterexample: the claim says the command always receives the
shell-escaped path, but `String.prototype.replaceAll` applies
GetSubstitution to a string replacement, so for the path `/tmp/$&.ts`
the escaped replacement's `$&` expands to the matched `{file}` and the
built command is `code '/tmp/{file}.ts'` — not `code ` followed by the
shell-escaped path. -/
theorem buildOpenCommand_dollar_pattern_expands :
    buildOpenCommand "/tmp/$&.ts".data "/w".data (some "code {file}".data) none none
      = "code '/tmp/{file}.ts'".data
    ∧ buildOpenCommand "/tmp/$&.ts".data "/w".data (some "code {file}".data) none none
      ≠ "code ".data ++ shellEscape "/tmp/$&.ts".data := by
  constructor
  · decide
  · decide

/-- C5 amended: `buildOpenCommand` substitutes `{file}` then `{cwd}` with
the shell-escaped path and cwd inserted through JS GetSubstitution, so
`$`-substitution forms inside the escaped values are expanded rather
than copied; whenever the escaped path and cwd contain no such form (in
particular for every path and cwd without a dollar), the substitution is
verbatim, and a template that never mentions `{file}` gets a space and
the shell-escaped path appended, so the command receives the file; the
spec's two concrete examples hold as stated. -/
theorem buildOpenCommand_substitution_dollar_free :
    (∀ (filePath cwd : Str) (openCommand visual editorVar : Option Str),
       noSubstPattern (shellEscape filePath) = true →
       noSubstPattern (shellEscape cwd) = true →
       hasSub "{file}".data (openTemplate openCommand visual editorVar) = true →
       buildOpenCommand filePath cwd openCommand visual editorVar =
         replaceAllVerbatim "{cwd}".data (shellEscape cwd)
           (replaceAllVerbatim "{file}".data (shellEscape filePath)
             (openTemplate openCommand visual editorVar)))
    ∧ (∀ (filePath cwd : Str) (openCommand visual editorVar : Option Str),
       noSubstPattern (shellEscape filePath) = true →
       noSubstPattern (shellEscape cwd) = true →
       hasSub "{file}".data (openTemplate openCommand visual editorVar) = false →
       buildOpenCommand filePath cwd openCommand visual editorVar =
         replaceAllVerbatim "{cwd}".data (shellEscape cwd)
           (replaceAllVerbatim "{file}".data (shellEscape filePath)
             (openTemplate openCommand visual editorVar)) ++ " ".data ++ shellEscape filePath)
    ∧ buildOpenCommand "/tmp/a b.ts".data "/w".data (some "code {file}".data) none none
        = "code '/tmp/a b.ts'".data
    ∧ buildOpenCommand "/tmp/a b.ts".data "/w".data (some "code".data) none none
        = "code '/tmp/a b.ts'".data := by
  refine ⟨?_, ?_, by decide, by decide⟩
  · intro filePath cwd openCommand visual editorVar h1 h2 h3
    simp only [buildOpenCommand, h3, if_true]
    rw [replaceAll_eq_verbatim _ _ _ h2, replaceAll_eq_verbatim _ _ _ h1]
  · intro filePath cwd openCommand visual editorVar h1 h2 h3
    simp only [buildOpenCommand, h3, Bool.false_eq_true, if_false]
    rw [replaceAll_eq_verbatim _ _ _ h2, replaceAll_eq_verbatim _ _ _ h1]

/-- C5 witness: the verbatim substitution equations of the amended
theorem at the dollar-free path `/a.ts`, for the concrete templates
"code {file}" (mentions the placeholder) and "code" (does not). -/
theorem buildOpenCommand_substitution_dollar_free_witness :
    buildOpenCommand "/a.ts".data "/w".data (some "code {file}".data) none none =
      replaceAllVerbatim "{cwd}".data (shellEscape "/w".data)
        (replaceAllVerbatim "{file}".data (shellEscape "/a.ts".data)
          (openTemplate (some "code {file}".data) none none))
    ∧ buildOpenCommand "/a.ts".data "/w".data (some "code".data) none none =
      replaceAllVerbatim "{cwd}".data (shellEscape "/w".data)
        (replaceAllVerbatim "{file}".data (shellEscape "/a.ts".data)
          (openTemplate (some "code".data) none none)) ++ " ".data ++ shellEscape "/a.ts".data :=
  ⟨buildOpenCommand_substitution_dollar_free.1 "/a.ts".data "/w".data
      (some "code {file}".data) none none (by decide) (by decide) (by decide),
   buildOpenCommand_substitution_dollar_free.2.1 "/a.ts".data "/w".data
      (some "code".data) none none (by decide) (by decide) (by decide)⟩

/-- C6: with an empty or whitespace-only query `rankCandidates` returns
exactly the input list unchanged; with a non-empty query it returns the
objects of what the external `fuzzysort.go` call (limit 200) produced —
so whenever the library honours its contract (at most the limit, results
drawn from the input, sorted by descending score) the returned list has
at most 200 entries, is drawn from the input candidates, and is the
object projection of a descending-score result sequence. -/
theorem rankCandidates_empty_query_and_cap :
    (∀ (go : Str → List Candidate → Nat → List FuzzyResult) (candidates : List Candidate)
       (query : Str), jsTrim query = [] → rankCandidates go candidates query = candidates)
    ∧ (∀ (go : Str → List Candidate → Nat → List FuzzyResult) (candidates : List Candidate)
       (query : Str), jsTrim query ≠ [] →
       ((go query candidates 200).length ≤ 200 →
          (rankCandidates go candidates query).length ≤ 200)
       ∧ ((∀ r ∈ go query candidates 200, r.obj ∈ candidates) →
          ∀ c ∈ rankCandidates go candidates query, c ∈ candidates)
       ∧ (List.Pairwise (fun a b : FuzzyResult => b.score ≤ a.score) (go query candidates 200) →
          ∃ rs, List.Pairwise (fun a b : FuzzyResult => b.score ≤ a.score) rs ∧
            (∀ r ∈ rs, r ∈ go query candidates 200) ∧
            rankCandidates go candidates query = rs.map (fun r => r.obj))) := by
  constructor
  · intro go candidates query h
    simp [rankCandidates, h]
  · intro go candidates query h
    have hq : (jsTrim query == []) = false := by
      simpa using h
    refine ⟨?_, ?_, ?_⟩
    · intro hlen
      simpa [rankCandidates, hq] using hlen
    · intro hmem c hc
      simp only [rankCandidates, hq, Bool.false_eq_true, if_false, List.mem_map] at hc
      rcases hc with ⟨r, hr, rfl⟩
      exact hmem r hr
    · intro hsort
      exact ⟨go query candidates 200, hsort, fun r hr => hr, by simp [rankCandidates, hq]⟩

/-- C6 witness: a concrete library stub returning no results, one
candidate, a whitespace query (identity) and a non-empty query (cap). -/
theorem rankCandidates_empty_query_and_cap_witness :
    rankCandidates (fun _ _ _ => []) [⟨"a.ts".data, "a.ts a.ts".data⟩] " ".data
      = [⟨"a.ts".data, "a.ts a.ts".data⟩]
    ∧ (rankCandidates (fun _ _ _ => []) [⟨"a.ts".data, "a.ts a.ts".data⟩] "q".data).length ≤ 200 :=
  ⟨rankCandidates_empty_query_and_cap.1 (fun _ _ _ => [])
      [⟨"a.ts".data, "a.ts a.ts".data⟩] " ".data (by decide),
   (rankCandidates_empty_query_and_cap.2 (fun _ _ _ => [])
      [⟨"a.ts".data, "a.ts a.ts".data⟩] "q".data (by decide)).1 (by decide)⟩

/-- C7: the extraction's path normalization `replace(/^@/, "")` removes
exactly one leading `@` and nothing else: stripping `'@' :: s` yields
`s`, a string not starting with `@` is unchanged, and on a whole session
log `getSessionEditedFiles` yields `@@foo.ts` as `@foo.ts` and
`plain.ts` unchanged. -/
theorem stripLeadingAt_exactly_one_marker :
    (∀ s : Str, stripLeadingAt ('@' :: s) = s)
    ∧ (∀ s : Str, s.head? ≠ some '@' → stripLeadingAt s = s)
    ∧ getSessionEditedFiles [msgEntry [toolBlock "edit" "@@foo.ts"]] = .ok ["@foo.ts".data]
    ∧ getSessionEditedFiles [msgEntry [toolBlock "edit" "plain.ts"]] = .ok ["plain.ts".data] := by
  refine ⟨fun s => rfl, ?_, by rfl, by rfl⟩
  intro s h
  match s with
  | [] => rfl
  | c :: cs =>
    have hc : c ≠ '@' := by
      intro hEq; exact h (by simp [hEq])
    simp only [stripLeadingAt]
    split
    · rename_i rest heq
      injection heq with h1 h2
      exact absurd h1 hc
    · rfl

/-- C7 witness: the normalization equations at concrete strings. -/
theorem stripLeadingAt_exactly_one_marker_witness :
    stripLeadingAt ('@' :: "@foo.ts".data) = "@foo.ts".data
    ∧ stripLeadingAt "plain.ts".data = "plain.ts".data :=
  ⟨stripLeadingAt_exactly_one_marker.1 "@foo.ts".data,
   stripLeadingAt_exactly_one_marker.2.1 "plain.ts".data (by decide)⟩

/-- C8: in the post-selection flow, a selected path that no longer exists
at launch time produces exactly the "File no longer exists" warning
outcome (no launch), and any launch outcome implies the path passed the
post-selection existence check and was the selected path. -/
theorem afterSelection_stale_never_launches :
    (∀ (ex : Str → Bool) (mode p : Str), ex p = false →
       afterSelection ex mode (some p) = .staleWarning ("File no longer exists: ".data ++ p))
    ∧ (∀ (ex : Str → Bool) (mode : Str) (sel : Option Str) (m p : Str),
       afterSelection ex mode sel = .launch m p → ex p = true ∧ sel = some p) := by
  constructor
  · intro ex mode p h
    simp [afterSelection, h]
  · intro ex mode sel m p h
    cases sel with
    | none => simp [afterSelection] at h
    | some q =>
      simp only [afterSelection] at h
      cases hex : ex q with
      | false => rw [hex] at h; simp at h
      | true =>
        rw [hex] at h
        simp only [Bool.not_true, Bool.false_eq_true, if_false] at h
        by_cases hb : (mode == "background".data) = true
        · rw [if_pos hb] at h
          injection h with h1 h2
          subst h2
          exact ⟨hex, rfl⟩
        · rw [if_neg hb] at h
          injection h with h1 h2
          subst h2
          exact ⟨hex, rfl⟩

/-- C8 witness: on a filesystem where nothing exists the stale warning is
produced for a concrete path, and a concrete background launch implies
its existence check succeeded. -/
theorem afterSelection_stale_never_launches_witness :
    afterSelection (fun _ => false) "foreground".data (some "/gone.ts".data)
      = .staleWarning ("File no longer exists: ".data ++ "/gone.ts".data)
    ∧ ((fun _ => true) "/a.ts".data = true ∧ some "/a.ts".data = some "/a.ts".data) :=
  ⟨afterSelection_stale_never_launches.1 (fun _ => false) "foreground".data
      "/gone.ts".data (by rfl),
   afterSelection_stale_never_launches.2 (fun _ => true) "background".data
      (some "/a.ts".data) "background".data "/a.ts".data (by rfl)⟩

/-- C9 counterexample: the claim says the resolved settings are
well-formed for every content of the two settings files, but a project
settings file whose `shortcut` is the number `42` (valid JSON, truthy,
not a string) makes line 73's `(merged.shortcut || "alt+o").toLowerCase()`
throw a TypeError instead of returning settings at all. -/
theorem loadSettings_nonstring_shortcut_throws :
    loadSettings envAgentDirOnly fsNumericShortcut "/home/user".data "/workdir".data =
      .error "TypeError: merged.shortcut.toLowerCase is not a function" := by
  rfl

/-- C9 amended: whenever `loadSettings` returns a settings object (it can
instead throw a TypeError when a settings-file layer supplies a truthy
non-string `shortcut`), that object has `openMode` equal to exactly
"foreground" or "background" and `shortcut` a non-empty, fully
lower-cased string (defaulting to "alt+o"). -/
theorem loadSettings_wellformed_when_ok :
    ∀ (env : Env) (fs : Str → Option Str) (home cwd : Str) (s : ResolvedSettings),
      loadSettings env fs home cwd = .ok s →
      (s.openMode = "foreground".data ∨ s.openMode = "background".data) ∧
      s.shortcut ≠ [] ∧ jsToLowerCase s.shortcut = s.shortcut := by
  intro env fs home cwd s h
  simp only [loadSettings] at h
  cases hsc : finalizeShortcut (mergedSettings env fs home cwd).shortcut with
  | error e => rw [hsc] at h; simp at h
  | ok sc =>
    rw [hsc] at h
    simp only at h
    injection h with h
    subst h
    constructor
    · show (match (mergedSettings env fs home cwd).openMode with
            | some v => (normalizeMode v).getD "foreground".data
            | none => "foreground".data) = "foreground".data ∨
           (match (mergedSettings env fs home cwd).openMode with
            | some v => (normalizeMode v).getD "foreground".data
            | none => "foreground".data) = "background".data
      cases hm : (mergedSettings env fs home cwd).openMode with
      | none => left; rfl
      | some v =>
        cases v with
        | str s0 =>
          simp only [normalizeMode]
          by_cases hfg : (s0 == "foreground".data || s0 == "background".data) = true
          · rw [if_pos hfg]
            rcases Bool.or_eq_true _ _ |>.mp hfg with h | h
            · left; simpa [Option.getD] using eq_of_beq h
            · right; simpa [Option.getD] using eq_of_beq h
          · rw [if_neg hfg]; left; rfl
        | undefined => left; rfl
        | null => left; rfl
        | bool b => left; rfl
        | num n => left; rfl
        | arr xs => left; rfl
        | obj fields => left; rfl
    · show sc ≠ [] ∧ jsToLowerCase sc = sc
      cases hv : (mergedSettings env fs home cwd).shortcut with
      | none =>
        rw [hv] at hsc
        simp only [finalizeShortcut] at hsc
        injection hsc with hsc
        subst hsc
        exact ⟨by decide, by decide⟩
      | some w =>
        rw [hv] at hsc
        simp only [finalizeShortcut] at hsc
        by_cases ht : truthy w = true
        · rw [if_pos ht] at hsc
          cases w with
          | str s0 =>
            injection hsc with hsc
            subst hsc
            have hne : s0 ≠ [] := by
              simp [truthy] at ht
              exact ht
            exact ⟨jsToLowerCase_ne_nil s0 hne, jsToLowerCase_idem s0⟩
          | undefined => simp at hsc
          | null => simp at hsc
          | bool b => simp at hsc
          | num n => simp at hsc
          | arr xs => simp at hsc
          | obj fields => simp at hsc
        · rw [if_neg ht] at hsc
          injection hsc with hsc
          subst hsc
          exact ⟨by decide, by decide⟩

/-- C9 witness: with only `PI_OPEN_FILE_SHORTCUT=ALT+P` set and no
settings files, `loadSettings` succeeds and the theorem yields the
well-formedness facts for the resolved record. -/
theorem loadSettings_wellformed_when_ok_witness :
    (("foreground".data : Str) = "foreground".data ∨
      ("foreground".data : Str) = "background".data)
    ∧ ("alt+p".data : Str) ≠ []
    ∧ jsToLowerCase "alt+p".data = "alt+p".data :=
  loadSettings_wellformed_when_ok envUpperShortcut (fun _ => none)
    "/home/user".data "/workdir".data
    { openCommand := none, openMode := "foreground".data, shortcut := "alt+p".data }
    (by rfl)

/-- C10: deduplication is keyed on the normalized path: a log editing
`@foo.ts`, then `bar.ts`, then `foo.ts` yields `foo.ts` exactly once, at
the position of the first of its two occurrences (before `bar.ts`). -/
theorem getSessionEditedFiles_dedup_normalized_demo :
    getSessionEditedFiles
      [msgEntry [toolBlock "edit" "@foo.ts", toolBlock "edit" "bar.ts",
                 toolBlock "write" "foo.ts"]]
      = .ok ["foo.ts".data, "bar.ts".data] := by
  rfl
